import Mathlib

/-!
Verification of the tier catalog, tier-selection and cost functions of
`src/fargate.py` (AWS Fargate calculator core), shallowly embedded in Lean 4.
CPU and memory quantities are modelled as rationals (every float appearing in
the Python module is an exact small decimal, so ℚ models the comparisons and
arithmetic exactly); fractional literals are written with `mkRat` (for example
`mkRat 1 4` for the Python literal `0.25`) so that they evaluate inside the
kernel. The fallible `get_resource` is modelled with `Except String`.
-/

/-- Mirrors the Python dataclass `Resource(details, cpu, memory)`. -/
structure Resource where
  details : String
  cpu : ℚ
  memory : ℚ
deriving DecidableEq, Repr

instance : DecidableEq (Except String Resource) := fun
  | .ok a, .ok b =>
    if h : a = b then .isTrue (by rw [h]) else .isFalse (by simp [h])
  | .ok _, .error _ => .isFalse (by simp)
  | .error _, .ok _ => .isFalse (by simp)
  | .error a, .error b =>
    if h : a = b then .isTrue (by rw [h]) else .isFalse (by simp [h])

/-- Builds one memory band: for each `i` in `List.range' lo len step`, the entry
`{details := pre ++ toString i ++ " GB", cpu := c, memory := i}`, mirroring the
Python list comprehensions over `range(...)` in `RESOURCES_MAPS`. -/
def band (pre : String) (c : ℚ) (lo len step : ℕ) : List Resource :=
  (List.range' lo len step).map fun i =>
    { details := pre ++ toString i ++ " GB", cpu := c, memory := (i : ℚ) }

/-- The catalog `RESOURCES` of `fargate.py`: the seven explicit small entries
(cpu 0.25 and 0.5) followed by the comprehension-generated bands for 1, 2, 4,
8 and 16 vCPU (`range(2, 9)`, `range(4, 17)`, `range(8, 31)`,
`range(16, 61, 4)`, `range(32, 121, 8)`). -/
def RESOURCES : List Resource :=
  [⟨"0.25 vCPU, 0.5 GB", mkRat 1 4, mkRat 1 2⟩,
   ⟨"0.25 vCPU, 1 GB", mkRat 1 4, 1⟩,
   ⟨"0.25 vCPU, 2 GB", mkRat 1 4, 2⟩,
   ⟨"0.5 vCPU, 1 GB", mkRat 1 2, 1⟩,
   ⟨"0.5 vCPU, 2 GB", mkRat 1 2, 2⟩,
   ⟨"0.5 vCPU, 3 GB", mkRat 1 2, 3⟩,
   ⟨"0.5 vCPU, 4 GB", mkRat 1 2, 4⟩] ++
  band "1 vCPU, " 1 2 7 1 ++
  band "2 vCPU, " 2 4 13 1 ++
  band "4 vCPU, " 4 8 23 1 ++
  band "8 vCPU, " 8 16 12 4 ++
  band "16 vCPU, " 16 32 12 8

/-- Pricing constant `PER_VCPU_COST_PER_HOUR = 0.05056` of `fargate.py`. -/
def PER_VCPU_COST_PER_HOUR : ℚ := mkRat 5056 100000

/-- Pricing constant `PER_GB_COST_PER_HOUR = 0.00553` of `fargate.py`. -/
def PER_GB_COST_PER_HOUR : ℚ := mkRat 553 100000

/-- Python's `max(l, key)` on a non-empty list, threading the current best:
a later element replaces the best only when its key is strictly larger, so the
first element attaining the maximum is returned. -/
def pyMaxAux (key : Resource → ℚ) (best : Resource) : List Resource → Resource
  | [] => best
  | x :: xs => pyMaxAux key (if key best < key x then x else best) xs

/-- Python's `max(l, key)` wrapped total: `none` on the empty list. -/
def pyMax (key : Resource → ℚ) : List Resource → Option Resource
  | [] => none
  | x :: xs => some (pyMaxAux key x xs)

/-- The scan predicate of `get_resource`:
`resource.cpu >= total_cpu and resource.memory >= total_memory`. -/
def covers (total_cpu total_memory : ℚ) (r : Resource) : Bool :=
  decide (total_cpu ≤ r.cpu) && decide (total_memory ≤ r.memory)

/-- Mirrors `get_alt_tier_resource(fargate_resource, total_cpu, total_memory)`:
case 1 when the primary tier's cpu equals the request, case 2 when it strictly
exceeds the request and the memory covers it, else the primary unchanged. -/
def get_alt_tier_resource (fargate_resource : Resource)
    (total_cpu total_memory : ℚ) : Resource :=
  if fargate_resource.cpu = total_cpu then
    match pyMax (fun x => x.memory)
        (RESOURCES.filter fun r =>
          decide (r.cpu = total_cpu) && decide (r.memory < total_memory)) with
    | some r => r
    | none => fargate_resource
  else if total_cpu < fargate_resource.cpu ∧
      total_memory ≤ fargate_resource.memory then
    match pyMax (fun x => x.cpu)
        (RESOURCES.filter fun r => decide (r.cpu < fargate_resource.cpu)) with
    | some mx =>
      match pyMax (fun x => x.memory)
          (RESOURCES.filter fun r =>
            decide (r.cpu = mx.cpu) && decide (-1 < r.memory - total_memory) &&
              decide (r.memory - total_memory < 1)) with
      | some r => r
      | none => fargate_resource
    | none => fargate_resource
  else fargate_resource

/-- Mirrors `get_resource(total_cpu, total_memory, alt_tier)`: first catalog
entry covering the request (routed through the alternate-tier heuristic when
`alt_tier`), and the `ValueError` when no entry covers. -/
def get_resource (total_cpu total_memory : ℚ) (alt_tier : Bool) :
    Except String Resource :=
  match RESOURCES.find? (covers total_cpu total_memory) with
  | some resource =>
    if alt_tier then
      .ok (get_alt_tier_resource resource total_cpu total_memory)
    else
      .ok resource
  | none =>
    .error "Requested resources exceed the maximum available resources for Fargate."

/-- Mirrors `get_cost_per_day(cpu, memory)`. -/
def get_cost_per_day (cpu memory : ℚ) : ℚ :=
  (cpu * PER_VCPU_COST_PER_HOUR + memory * PER_GB_COST_PER_HOUR) * 24

/-! Helper lemmas about `List.find?`, `pyMax` and the catalog. -/

/-- Strict lexicographic order on `(cpu, memory)`. -/
def lexLT (a b : Resource) : Prop :=
  a.cpu < b.cpu ∨ (a.cpu = b.cpu ∧ a.memory < b.memory)

instance : DecidableRel lexLT := fun a b =>
  inferInstanceAs (Decidable (a.cpu < b.cpu ∨ (a.cpu = b.cpu ∧ a.memory < b.memory)))

/-- The cpu values occurring in the catalog. -/
def cpuValues : List ℚ := [mkRat 1 4, mkRat 1 2, 1, 2, 4, 8, 16]

/-- Transcribed from the specification's band table (§4.1), for comparison with
the source-generated catalog: cpu 0.25 with memory 0.5, 1, 2; cpu 0.5 with
memory 1..4; cpu 1 with memory 2..8 step 1; cpu 2 with memory 4..16 step 1;
cpu 4 with memory 8..30 step 1; cpu 8 with memory 16..60 step 4; cpu 16 with
memory 32..120 step 8. -/
def spec_band_pairs : List (ℚ × ℚ) :=
  [(mkRat 1 4, mkRat 1 2), (mkRat 1 4, 1), (mkRat 1 4, 2)] ++
  [(mkRat 1 2, 1), (mkRat 1 2, 2), (mkRat 1 2, 3), (mkRat 1 2, 4)] ++
  ((List.range' 2 7 1).map fun i => ((1 : ℚ), (i : ℚ))) ++
  ((List.range' 4 13 1).map fun i => ((2 : ℚ), (i : ℚ))) ++
  ((List.range' 8 23 1).map fun i => ((4 : ℚ), (i : ℚ))) ++
  ((List.range' 16 12 4).map fun i => ((8 : ℚ), (i : ℚ))) ++
  ((List.range' 32 12 8).map fun i => ((16 : ℚ), (i : ℚ)))

lemma resources_pairwise : List.Pairwise lexLT RESOURCES := by decide

lemma resources_bounded : ∀ r ∈ RESOURCES, r.cpu ≤ 16 ∧ r.memory ≤ 120 := by decide

lemma resources_top : ∃ r ∈ RESOURCES, 16 ≤ r.cpu ∧ 120 ≤ r.memory := by decide

lemma resources_cpu_values : ∀ r ∈ RESOURCES, r.cpu ∈ cpuValues := by decide

lemma mkRat_quarter : (mkRat 1 4 : ℚ) = 1 / 4 := by
  norm_num [Rat.mkRat_eq_div]

lemma per_vcpu_val : PER_VCPU_COST_PER_HOUR = 5056 / 100000 := by
  norm_num [PER_VCPU_COST_PER_HOUR, Rat.mkRat_eq_div]

lemma per_gb_val : PER_GB_COST_PER_HOUR = 553 / 100000 := by
  norm_num [PER_GB_COST_PER_HOUR, Rat.mkRat_eq_div]

/-- Any two distinct catalog cpu values are at least a quarter vCPU apart. -/
lemma cpu_gap : ∀ a ∈ cpuValues, ∀ b ∈ cpuValues, a < b → a + mkRat 1 4 ≤ b := by
  intro a ha b hb hab
  simp only [cpuValues, List.mem_cons, List.not_mem_nil, or_false] at ha hb
  rcases ha with rfl | rfl | rfl | rfl | rfl | rfl | rfl <;>
    rcases hb with rfl | rfl | rfl | rfl | rfl | rfl | rfl <;>
    first
      | exact absurd hab (by decide)
      | norm_num [Rat.mkRat_eq_div]

/-- `List.find?` returns the first element satisfying the predicate. -/
lemma find?_first {α : Type} (p : α → Bool) :
    ∀ (l : List α) (x : α), l.find? p = some x →
      p x = true ∧ ∃ i, ∃ hi : i < l.length, l.get ⟨i, hi⟩ = x ∧
        ∀ j, ∀ hj : j < l.length, j < i → p (l.get ⟨j, hj⟩) = false
  | [], x, h => by simp at h
  | a :: l, x, h => by
    by_cases ha : p a
    · rw [List.find?_cons_of_pos _ ha] at h
      obtain rfl : a = x := by injection h
      exact ⟨ha, 0, Nat.succ_pos _, rfl, fun j hj hj0 => absurd hj0 (Nat.not_lt_zero _)⟩
    · rw [List.find?_cons_of_neg _ ha] at h
      obtain ⟨hx, i, hi, hgi, hfirst⟩ := find?_first p l x h
      refine ⟨hx, i + 1, Nat.succ_lt_succ hi, hgi, ?_⟩
      intro j hj hji
      match j, hj with
      | 0, _ => exact Bool.not_eq_true _ ▸ eq_false_of_ne_true ha
      | k + 1, hk =>
        exact hfirst k (Nat.lt_of_succ_lt_succ hk) (Nat.lt_of_succ_lt_succ hji)

/-- If some element of `l` satisfies `p`, `List.find?` succeeds. -/
lemma find?_of_exists {α : Type} (p : α → Bool) (l : List α) (x : α)
    (hx : x ∈ l) (hpx : p x = true) : ∃ y, l.find? p = some y := by
  cases h : l.find? p with
  | some y => exact ⟨y, rfl⟩
  | none => exact absurd hpx (by simpa using List.find?_eq_none.mp h x hx)

lemma pyMaxAux_mem (key : Resource → ℚ) (best : Resource) :
    ∀ l : List Resource, pyMaxAux key best l = best ∨ pyMaxAux key best l ∈ l
  | [] => Or.inl rfl
  | x :: xs => by
    rw [pyMaxAux]
    rcases pyMaxAux_mem key (if key best < key x then x else best) xs with h | h
    · rw [h]
      by_cases hc : key best < key x
      · rw [if_pos hc]; exact Or.inr (List.mem_cons_self x xs)
      · rw [if_neg hc]; exact Or.inl rfl
    · exact Or.inr (List.mem_cons_of_mem x h)

lemma pyMaxAux_le (key : Resource → ℚ) (best : Resource) :
    ∀ l : List Resource, key best ≤ key (pyMaxAux key best l) ∧
      ∀ y ∈ l, key y ≤ key (pyMaxAux key best l)
  | [] => ⟨le_refl _, fun y hy => absurd hy (List.not_mem_nil y)⟩
  | x :: xs => by
    rw [pyMaxAux]
    obtain ⟨h1, h2⟩ := pyMaxAux_le key (if key best < key x then x else best) xs
    have hb : key best ≤ key (if key best < key x then x else best) := by
      by_cases hc : key best < key x
      · rw [if_pos hc]; exact le_of_lt hc
      · rw [if_neg hc]
    have hx : key x ≤ key (if key best < key x then x else best) := by
      by_cases hc : key best < key x
      · rw [if_pos hc]
      · rw [if_neg hc]; exact le_of_not_lt hc
    refine ⟨le_trans hb h1, ?_⟩
    intro y hy
    rcases List.mem_cons.mp hy with rfl | hy'
    · exact le_trans hx h1
    · exact h2 y hy'

/-- `pyMax` of a non-empty list is a member attaining the maximal key. -/
lemma pyMax_spec (key : Resource → ℚ) (l : List Resource) (x : Resource)
    (h : pyMax key l = some x) : x ∈ l ∧ ∀ y ∈ l, key y ≤ key x := by
  match l, h with
  | a :: as, h =>
    obtain rfl : pyMaxAux key a as = x := by injection h
    constructor
    · rcases pyMaxAux_mem key a as with h' | h'
      · rw [h']; exact List.mem_cons_self a as
      · exact List.mem_cons_of_mem a h'
    · intro y hy
      obtain ⟨h1, h2⟩ := pyMaxAux_le key a as
      rcases List.mem_cons.mp hy with rfl | hy'
      · exact h1
      · exact h2 y hy'

lemma pyMax_eq_none (key : Resource → ℚ) (l : List Resource) :
    pyMax key l = none ↔ l = [] := by
  cases l <;> simp [pyMax]

/-- Unfolding of `get_alt_tier_resource` in its first (exact cpu match) case. -/
lemma alt_case1_eq (fr : Resource) (c m : ℚ) (hfr : fr.cpu = c) :
    get_alt_tier_resource fr c m =
      match pyMax (fun x => x.memory)
          (RESOURCES.filter fun r =>
            decide (r.cpu = c) && decide (r.memory < m)) with
      | some r => r
      | none => fr := by
  unfold get_alt_tier_resource
  rw [if_pos hfr]

/-- Unfolding of `get_alt_tier_resource` in its second case, once the lower
cpu band has been computed. -/
lemma alt_case2_eq (fr : Resource) (c m : ℚ) (hne : ¬fr.cpu = c)
    (hcm : c < fr.cpu ∧ m ≤ fr.memory) (mx : Resource)
    (hpm1 : pyMax (fun x => x.cpu)
      (RESOURCES.filter fun r => decide (r.cpu < fr.cpu)) = some mx) :
    get_alt_tier_resource fr c m =
      match pyMax (fun x => x.memory)
          (RESOURCES.filter fun r =>
            decide (r.cpu = mx.cpu) && decide (-1 < r.memory - m) &&
              decide (r.memory - m < 1)) with
      | some r => r
      | none => fr := by
  unfold get_alt_tier_resource
  rw [if_neg hne, if_pos hcm, hpm1]

/-- Unfolding of `get_alt_tier_resource` in its second case when there is no
catalog tier below the primary cpu at all. -/
lemma alt_case2_none (fr : Resource) (c m : ℚ) (hne : ¬fr.cpu = c)
    (hcm : c < fr.cpu ∧ m ≤ fr.memory)
    (hpm1 : pyMax (fun x => x.cpu)
      (RESOURCES.filter fun r => decide (r.cpu < fr.cpu)) = none) :
    get_alt_tier_resource fr c m = fr := by
  unfold get_alt_tier_resource
  rw [if_neg hne, if_pos hcm, hpm1]

/-- Unfolding of `get_alt_tier_resource` when neither case condition holds. -/
lemma alt_else_eq (fr : Resource) (c m : ℚ) (hne : ¬fr.cpu = c)
    (hn2 : ¬(c < fr.cpu ∧ m ≤ fr.memory)) :
    get_alt_tier_resource fr c m = fr := by
  unfold get_alt_tier_resource
  rw [if_neg hne, if_neg hn2]

/-- A successful `get_resource _ _ false` is exactly a successful catalog
scan. -/
lemma get_resource_ok (c m : ℚ) (fr : Resource)
    (hp : get_resource c m false = .ok fr) :
    RESOURCES.find? (covers c m) = some fr := by
  unfold get_resource at hp
  cases h : RESOURCES.find? (covers c m) with
  | some y => rw [h] at hp; simp at hp; rw [hp]
  | none => rw [h] at hp; simp at hp

/-! Claim theorems. -/

/-- C1: for every request `(c, m)` with `0 < c ≤ 16` and `0 < m ≤ 120`,
`get_resource c m false` returns a tier with `c ≤ cpu` and `m ≤ memory`, and no
catalog tier earlier in the catalog's generation order also satisfies both
inequalities (first-match-in-table-order semantics). -/
theorem c1_select_minimal_first_match (c m : ℚ) (hc0 : 0 < c) (hc : c ≤ 16)
    (hm0 : 0 < m) (hm : m ≤ 120) :
    ∃ t : Resource, get_resource c m false = .ok t ∧
      c ≤ t.cpu ∧ m ≤ t.memory ∧
      ∃ i, ∃ hi : i < RESOURCES.length, RESOURCES.get ⟨i, hi⟩ = t ∧
        ∀ j, ∀ hj : j < RESOURCES.length, j < i →
          ¬(c ≤ (RESOURCES.get ⟨j, hj⟩).cpu ∧
            m ≤ (RESOURCES.get ⟨j, hj⟩).memory) := by
  obtain ⟨r, hr, hrc, hrm⟩ := resources_top
  have hpr : covers c m r = true := by
    simp only [covers, Bool.and_eq_true, decide_eq_true_eq]
    exact ⟨le_trans hc hrc, le_trans hm hrm⟩
  obtain ⟨t, ht⟩ := find?_of_exists (covers c m) RESOURCES r hr hpr
  obtain ⟨hpt, i, hi, hgi, hfirst⟩ := find?_first _ _ _ ht
  simp only [covers, Bool.and_eq_true, decide_eq_true_eq] at hpt
  refine ⟨t, ?_, hpt.1, hpt.2, i, hi, hgi, ?_⟩
  · unfold get_resource
    rw [ht]
    rfl
  · intro j hj hji hcov
    have hcb : covers c m (RESOURCES.get ⟨j, hj⟩) = true := by
      simp only [covers, Bool.and_eq_true, decide_eq_true_eq]
      exact hcov
    rw [hfirst j hj hji] at hcb
    exact Bool.false_ne_true hcb

/-- Witness for C1 at the concrete request `(2, 3.75)`. -/
theorem c1_select_minimal_first_match_witness :
    ∃ t : Resource, get_resource 2 (mkRat 15 4) false = .ok t ∧
      (2 : ℚ) ≤ t.cpu ∧ (mkRat 15 4 : ℚ) ≤ t.memory ∧
      ∃ i, ∃ hi : i < RESOURCES.length, RESOURCES.get ⟨i, hi⟩ = t ∧
        ∀ j, ∀ hj : j < RESOURCES.length, j < i →
          ¬((2 : ℚ) ≤ (RESOURCES.get ⟨j, hj⟩).cpu ∧
            (mkRat 15 4 : ℚ) ≤ (RESOURCES.get ⟨j, hj⟩).memory) :=
  c1_select_minimal_first_match 2 (mkRat 15 4) (by decide) (by decide)
    (by decide) (by decide)

/-- C2: for positive requests, `get_resource` with `alt_tier = false` fails
with the resource-exceeded error exactly when the requested cpu exceeds 16 or
the requested memory exceeds 120 (no catalog tier covers the request), and in
particular the requests `(16.01, 1)` and `(1, 121)` both produce the error. -/
theorem c2_resource_exceeded :
    (∀ c m : ℚ, 0 < c → 0 < m →
      ((∃ s, get_resource c m false = .error s) ↔ 16 < c ∨ 120 < m)) ∧
    get_resource (mkRat 1601 100) 1 false =
      .error "Requested resources exceed the maximum available resources for Fargate." ∧
    get_resource 1 121 false =
      .error "Requested resources exceed the maximum available resources for Fargate." := by
  refine ⟨?_, by decide, by decide⟩
  intro c m hc0 hm0
  constructor
  · rintro ⟨s, hs⟩
    by_contra hcontra
    push_neg at hcontra
    obtain ⟨hc, hm⟩ := hcontra
    obtain ⟨r, hr, hrc, hrm⟩ := resources_top
    obtain ⟨y, hy⟩ := find?_of_exists (covers c m) RESOURCES r hr (by
      simp only [covers, Bool.and_eq_true, decide_eq_true_eq]
      exact ⟨le_trans hc hrc, le_trans hm hrm⟩)
    unfold get_resource at hs
    rw [hy] at hs
    simp at hs
  · intro h
    have hnone : RESOURCES.find? (covers c m) = none := by
      rw [List.find?_eq_none]
      intro r hr
      obtain ⟨hrc, hrm⟩ := resources_bounded r hr
      simp only [covers, Bool.and_eq_true, decide_eq_true_eq, not_and_or]
      rcases h with h16 | h120
      · exact Or.inl (not_le.mpr (lt_of_le_of_lt hrc h16))
      · exact Or.inr (not_le.mpr (lt_of_le_of_lt hrm h120))
    unfold get_resource
    rw [hnone]
    exact ⟨_, rfl⟩

/-- Witness for C2 at the concrete request `(17, 1)`. -/
theorem c2_resource_exceeded_witness :
    ∃ s, get_resource 17 1 false = .error s :=
  (c2_resource_exceeded.1 17 1 (by decide) (by decide)).mpr (Or.inl (by decide))

/-- C3: the generated catalog consists of exactly the (cpu, memory) pairs of
the band table in their table order, is strictly increasing (hence
monotonically non-decreasing) in (cpu, memory) lexicographic order, has no two
entries with the same (cpu, memory), and has the fixed size 74. -/
theorem c3_catalog_matches_band_table :
    RESOURCES.map (fun r => (r.cpu, r.memory)) = spec_band_pairs ∧
    List.Pairwise lexLT RESOURCES ∧
    (RESOURCES.map (fun r => (r.cpu, r.memory))).Nodup ∧
    RESOURCES.length = 74 :=
  ⟨by decide, resources_pairwise, by decide, by decide⟩

/-- C4: the tier returned by `get_resource _ _ false` has the smallest cpu
among all covering catalog tiers and, among covering tiers with that cpu, the
smallest memory; concretely the request (2, 3.75) yields the (2, 4) tier. -/
theorem c4_first_match_is_minimal :
    (∀ (c m : ℚ) (t : Resource), get_resource c m false = .ok t →
      ∀ r ∈ RESOURCES, c ≤ r.cpu → m ≤ r.memory →
        t.cpu ≤ r.cpu ∧ (r.cpu = t.cpu → t.memory ≤ r.memory)) ∧
    get_resource 2 (mkRat 15 4) false = .ok ⟨"2 vCPU, 4 GB", 2, 4⟩ := by
  refine ⟨?_, by decide⟩
  intro c m t hp r hr hrc hrm
  have ht := get_resource_ok c m t hp
  obtain ⟨hpt, i, hi, hgi, hfirst⟩ := find?_first _ _ _ ht
  obtain ⟨j, hj, hgj⟩ := List.mem_iff_getElem.mp hr
  have hgj' : RESOURCES.get ⟨j, hj⟩ = r := by
    simpa [List.get_eq_getElem] using hgj
  rcases Nat.lt_trichotomy j i with hji | rfl | hij
  · exfalso
    have hcb : covers c m (RESOURCES.get ⟨j, hj⟩) = true := by
      simp only [covers, Bool.and_eq_true, decide_eq_true_eq, hgj']
      exact ⟨hrc, hrm⟩
    rw [hfirst j hj hji] at hcb
    exact Bool.false_ne_true hcb
  · have : r = t := by rw [← hgj', ← hgi]
    subst this
    exact ⟨le_refl _, fun _ => le_refl _⟩
  · have hlex : lexLT (RESOURCES.get ⟨i, hi⟩) (RESOURCES.get ⟨j, hj⟩) := by
      have := List.pairwise_iff_getElem.mp resources_pairwise i j hi hj hij
      simpa [List.get_eq_getElem] using this
    rw [hgi, hgj'] at hlex
    rcases hlex with hcpu | ⟨hcpu, hmem⟩
    · exact ⟨le_of_lt hcpu, fun heq => absurd (heq ▸ hcpu) (lt_irrefl _)⟩
    · exact ⟨le_of_eq hcpu, fun _ => le_of_lt hmem⟩

/-- Witness for C4: the tier (2, 4) selected for the request (2, 3.75) is
minimal against the covering tier (4, 8). -/
theorem c4_first_match_is_minimal_witness :
    (⟨"2 vCPU, 4 GB", 2, 4⟩ : Resource).cpu ≤
      (⟨"4 vCPU, 8 GB", 4, 8⟩ : Resource).cpu ∧
    ((⟨"4 vCPU, 8 GB", 4, 8⟩ : Resource).cpu =
        (⟨"2 vCPU, 4 GB", 2, 4⟩ : Resource).cpu →
      (⟨"2 vCPU, 4 GB", 2, 4⟩ : Resource).memory ≤
        (⟨"4 vCPU, 8 GB", 4, 8⟩ : Resource).memory) :=
  c4_first_match_is_minimal.1 2 (mkRat 15 4) ⟨"2 vCPU, 4 GB", 2, 4⟩ (by decide)
    ⟨"4 vCPU, 8 GB", 4, 8⟩ (by decide) (by decide) (by decide)

/-- C5: in the exact-cpu-match case, when some catalog tier has the same cpu
and memory strictly below the request, `get_alt_tier_resource` returns the one
with the largest such memory (under-provisioning memory); concretely the
primary for (1, 4) is the (1, 4) tier and the alternate is the (1, 3) tier,
whose memory is below the requested 4. -/
theorem c5_alt_exact_cpu_match :
    (∀ (fr : Resource) (c m : ℚ), fr.cpu = c →
      (∃ r ∈ RESOURCES, r.cpu = c ∧ r.memory < m) →
      get_alt_tier_resource fr c m ∈ RESOURCES ∧
      (get_alt_tier_resource fr c m).cpu = c ∧
      (get_alt_tier_resource fr c m).memory < m ∧
      ∀ r ∈ RESOURCES, r.cpu = c → r.memory < m →
        r.memory ≤ (get_alt_tier_resource fr c m).memory) ∧
    (get_resource 1 4 false = .ok ⟨"1 vCPU, 4 GB", 1, 4⟩ ∧
     get_alt_tier_resource ⟨"1 vCPU, 4 GB", 1, 4⟩ 1 4 = ⟨"1 vCPU, 3 GB", 1, 3⟩ ∧
     (get_alt_tier_resource ⟨"1 vCPU, 4 GB", 1, 4⟩ 1 4).memory < 4) := by
  refine ⟨?_, by decide, by decide, by decide⟩
  rintro fr c m hfr ⟨r0, hr0, hr0c, hr0m⟩
  have hr0f : r0 ∈ RESOURCES.filter
      (fun r => decide (r.cpu = c) && decide (r.memory < m)) :=
    List.mem_filter.mpr ⟨hr0, by simp [hr0c, hr0m]⟩
  rw [alt_case1_eq fr c m hfr]
  cases hpm : pyMax (fun x => x.memory)
      (RESOURCES.filter fun r => decide (r.cpu = c) && decide (r.memory < m)) with
  | none =>
    rw [pyMax_eq_none] at hpm
    rw [hpm] at hr0f
    simp at hr0f
  | some x =>
    obtain ⟨hxf, hxmax⟩ := pyMax_spec _ _ _ hpm
    obtain ⟨hxR, hxp⟩ := List.mem_filter.mp hxf
    simp only [Bool.and_eq_true, decide_eq_true_eq] at hxp
    refine ⟨hxR, hxp.1, hxp.2, ?_⟩
    intro r hrR hrc hrm
    exact hxmax r (List.mem_filter.mpr ⟨hrR, by simp [hrc, hrm]⟩)

/-- Witness for C5 at the primary tier (1, 4) and request (1, 4). -/
theorem c5_alt_exact_cpu_match_witness :
    get_alt_tier_resource ⟨"1 vCPU, 4 GB", 1, 4⟩ 1 4 ∈ RESOURCES ∧
    (get_alt_tier_resource ⟨"1 vCPU, 4 GB", 1, 4⟩ 1 4).cpu = 1 ∧
    (get_alt_tier_resource ⟨"1 vCPU, 4 GB", 1, 4⟩ 1 4).memory < 4 ∧
    ∀ r ∈ RESOURCES, r.cpu = 1 → r.memory < 4 →
      r.memory ≤ (get_alt_tier_resource ⟨"1 vCPU, 4 GB", 1, 4⟩ 1 4).memory :=
  c5_alt_exact_cpu_match.1 ⟨"1 vCPU, 4 GB", 1, 4⟩ 1 4 (by decide) (by decide)

set_option maxRecDepth 4000 in
/-- C6: in the over-provisioned-cpu case, with `L` the largest catalog cpu
strictly below the primary's cpu, `get_alt_tier_resource` returns the tier of
cpu `L` with the largest memory inside the open window of width 2 centred on
the requested memory, and falls back to the primary tier when the window is
empty; concretely the request (1.5, 5) has primary (2, 5) and alternate
(1, 5). -/
theorem c6_alt_lower_band_window :
    (∀ (fr : Resource) (c m L : ℚ), c < fr.cpu → m ≤ fr.memory →
      (∃ r ∈ RESOURCES, r.cpu = L ∧ r.cpu < fr.cpu) →
      (∀ r ∈ RESOURCES, r.cpu < fr.cpu → r.cpu ≤ L) →
      ((∃ r ∈ RESOURCES, r.cpu = L ∧ -1 < r.memory - m ∧ r.memory - m < 1) →
        get_alt_tier_resource fr c m ∈ RESOURCES ∧
        (get_alt_tier_resource fr c m).cpu = L ∧
        -1 < (get_alt_tier_resource fr c m).memory - m ∧
        (get_alt_tier_resource fr c m).memory - m < 1 ∧
        ∀ r ∈ RESOURCES, r.cpu = L → -1 < r.memory - m → r.memory - m < 1 →
          r.memory ≤ (get_alt_tier_resource fr c m).memory) ∧
      ((¬∃ r ∈ RESOURCES, r.cpu = L ∧ -1 < r.memory - m ∧ r.memory - m < 1) →
        get_alt_tier_resource fr c m = fr)) ∧
    (get_resource (mkRat 3 2) 5 false = .ok ⟨"2 vCPU, 5 GB", 2, 5⟩ ∧
     get_alt_tier_resource ⟨"2 vCPU, 5 GB", 2, 5⟩ (mkRat 3 2) 5 =
       ⟨"1 vCPU, 5 GB", 1, 5⟩) := by
  constructor
  · rintro fr c m L hc hm ⟨rL, hrL, hrLc, hrLlt⟩ hLmax
    have hne : ¬fr.cpu = c := ne_of_gt hc
    have hrLf : rL ∈ RESOURCES.filter (fun r => decide (r.cpu < fr.cpu)) :=
      List.mem_filter.mpr ⟨hrL, by simp [hrLlt]⟩
    cases hpm1 : pyMax (fun x => x.cpu)
        (RESOURCES.filter fun r => decide (r.cpu < fr.cpu)) with
    | none =>
      rw [pyMax_eq_none] at hpm1
      rw [hpm1] at hrLf
      simp at hrLf
    | some mx =>
      obtain ⟨hmxf, hmxmax⟩ := pyMax_spec _ _ _ hpm1
      obtain ⟨hmxR, hmxp⟩ := List.mem_filter.mp hmxf
      simp only [decide_eq_true_eq] at hmxp
      have hmxL : mx.cpu = L := by
        refine le_antisymm (hLmax mx hmxR hmxp) ?_
        have h1 : rL.cpu ≤ mx.cpu := hmxmax rL hrLf
        rw [hrLc] at h1
        exact h1
      rw [alt_case2_eq fr c m hne ⟨hc, hm⟩ mx hpm1]
      constructor
      · rintro ⟨rw0, hrw, hrwc, hrw1, hrw2⟩
        have hrwf : rw0 ∈ RESOURCES.filter (fun r =>
            decide (r.cpu = mx.cpu) && decide (-1 < r.memory - m) &&
              decide (r.memory - m < 1)) :=
          List.mem_filter.mpr ⟨hrw, by simp [hrwc, hmxL, hrw1, hrw2]⟩
        cases hpm2 : pyMax (fun x => x.memory)
            (RESOURCES.filter fun r =>
              decide (r.cpu = mx.cpu) && decide (-1 < r.memory - m) &&
                decide (r.memory - m < 1)) with
        | none =>
          rw [pyMax_eq_none] at hpm2
          rw [hpm2] at hrwf
          simp at hrwf
        | some x =>
          obtain ⟨hxf, hxmax⟩ := pyMax_spec _ _ _ hpm2
          obtain ⟨hxR, hxp⟩ := List.mem_filter.mp hxf
          simp only [Bool.and_eq_true, decide_eq_true_eq] at hxp
          refine ⟨hxR, hxp.1.1.trans hmxL, hxp.1.2, hxp.2, ?_⟩
          intro r hrR hrc hr1 hr2
          exact hxmax r (List.mem_filter.mpr
            ⟨hrR, by simp [hrc, hmxL, hr1, hr2]⟩)
      · intro hnwin
        cases hpm2 : pyMax (fun x => x.memory)
            (RESOURCES.filter fun r =>
              decide (r.cpu = mx.cpu) && decide (-1 < r.memory - m) &&
                decide (r.memory - m < 1)) with
        | none => rfl
        | some x =>
          exfalso
          apply hnwin
          obtain ⟨hxf, _⟩ := pyMax_spec _ _ _ hpm2
          obtain ⟨hxR, hxp⟩ := List.mem_filter.mp hxf
          simp only [Bool.and_eq_true, decide_eq_true_eq] at hxp
          exact ⟨x, hxR, hxp.1.1.trans hmxL, hxp.1.2, hxp.2⟩
  · refine ⟨by decide, ?_⟩
    norm_num [get_alt_tier_resource, RESOURCES, band, List.range', pyMax,
      pyMaxAux, List.filter]
    rfl

/-- Witness for C6: at the request (1.5, 5) with primary (2, 5) and lower
band L = 1, the returned alternate tier has cpu 1. -/
theorem c6_alt_lower_band_window_witness :
    (get_alt_tier_resource ⟨"2 vCPU, 5 GB", 2, 5⟩ (mkRat 3 2) 5).cpu = 1 :=
  ((c6_alt_lower_band_window.1 ⟨"2 vCPU, 5 GB", 2, 5⟩ (mkRat 3 2) 5 1
      (by decide) (by decide) (by decide) (by decide)).1
    ⟨⟨"1 vCPU, 5 GB", 1, 5⟩, by decide, rfl, by norm_num, by norm_num⟩).2.1

/-- C7: `get_alt_tier_resource` is total and, when neither case applies with a
non-empty candidate set, returns the primary tier unchanged. -/
theorem c7_total_fallback (fr : Resource) (c m : ℚ)
    (h1 : ¬(fr.cpu = c ∧ ∃ r ∈ RESOURCES, r.cpu = c ∧ r.memory < m))
    (h2 : ¬(c < fr.cpu ∧ m ≤ fr.memory ∧ ∃ r ∈ RESOURCES,
        r.cpu < fr.cpu ∧ (∀ q ∈ RESOURCES, q.cpu < fr.cpu → q.cpu ≤ r.cpu) ∧
        -1 < r.memory - m ∧ r.memory - m < 1)) :
    get_alt_tier_resource fr c m = fr := by
  by_cases hfr : fr.cpu = c
  · rw [alt_case1_eq fr c m hfr]
    cases hpm : pyMax (fun x => x.memory)
        (RESOURCES.filter fun r => decide (r.cpu = c) && decide (r.memory < m)) with
    | none => rfl
    | some x =>
      exfalso
      apply h1
      obtain ⟨hxf, _⟩ := pyMax_spec _ _ _ hpm
      obtain ⟨hxR, hxp⟩ := List.mem_filter.mp hxf
      simp only [Bool.and_eq_true, decide_eq_true_eq] at hxp
      exact ⟨hfr, x, hxR, hxp.1, hxp.2⟩
  · by_cases hcm : c < fr.cpu ∧ m ≤ fr.memory
    · cases hpm1 : pyMax (fun x => x.cpu)
          (RESOURCES.filter fun r => decide (r.cpu < fr.cpu)) with
      | none => exact alt_case2_none fr c m hfr hcm hpm1
      | some mx =>
        obtain ⟨hmxf, hmxmax⟩ := pyMax_spec _ _ _ hpm1
        obtain ⟨hmxR, hmxp⟩ := List.mem_filter.mp hmxf
        simp only [decide_eq_true_eq] at hmxp
        rw [alt_case2_eq fr c m hfr hcm mx hpm1]
        cases hpm2 : pyMax (fun x => x.memory)
            (RESOURCES.filter fun r =>
              decide (r.cpu = mx.cpu) && decide (-1 < r.memory - m) &&
                decide (r.memory - m < 1)) with
        | none => rfl
        | some x =>
          exfalso
          apply h2
          obtain ⟨hxf, _⟩ := pyMax_spec _ _ _ hpm2
          obtain ⟨hxR, hxp⟩ := List.mem_filter.mp hxf
          simp only [Bool.and_eq_true, decide_eq_true_eq] at hxp
          refine ⟨hcm.1, hcm.2, x, hxR, hxp.1.1 ▸ hmxp, ?_, hxp.1.2, hxp.2⟩
          intro q hqR hq
          exact hxp.1.1 ▸ hmxmax q (List.mem_filter.mpr ⟨hqR, by simp [hq]⟩)
    · exact alt_else_eq fr c m hfr hcm

/-- Witness for C7: the minimal tier (0.25, 0.5) with the request it covers
exactly is returned unchanged. -/
theorem c7_total_fallback_witness :
    get_alt_tier_resource ⟨"0.25 vCPU, 0.5 GB", mkRat 1 4, mkRat 1 2⟩
        (mkRat 1 4) (mkRat 1 2) =
      ⟨"0.25 vCPU, 0.5 GB", mkRat 1 4, mkRat 1 2⟩ :=
  c7_total_fallback ⟨"0.25 vCPU, 0.5 GB", mkRat 1 4, mkRat 1 2⟩
    (mkRat 1 4) (mkRat 1 2) (by decide) (by decide)

/-- C8: whenever the alternate tier differs from the primary tier obtained by
`get_resource _ _ false`, its daily cost is strictly below the primary tier's
daily cost under the published price constants. -/
theorem c8_alt_strictly_cheaper (c m : ℚ) (fr : Resource)
    (hp : get_resource c m false = .ok fr)
    (hne : get_alt_tier_resource fr c m ≠ fr) :
    get_cost_per_day (get_alt_tier_resource fr c m).cpu
        (get_alt_tier_resource fr c m).memory <
      get_cost_per_day fr.cpu fr.memory := by
  have ht := get_resource_ok c m fr hp
  have hfrR : fr ∈ RESOURCES := List.mem_of_find?_eq_some ht
  have hcov : c ≤ fr.cpu ∧ m ≤ fr.memory := by
    have := List.find?_some ht
    simpa [covers, Bool.and_eq_true, decide_eq_true_eq] using this
  by_cases hfr : fr.cpu = c
  · rw [alt_case1_eq fr c m hfr] at hne ⊢
    cases hpm : pyMax (fun x => x.memory)
        (RESOURCES.filter fun r => decide (r.cpu = c) && decide (r.memory < m)) with
    | none => rw [hpm] at hne; exact absurd rfl hne
    | some x =>
      obtain ⟨hxf, _⟩ := pyMax_spec _ _ _ hpm
      obtain ⟨hxR, hxp⟩ := List.mem_filter.mp hxf
      simp only [Bool.and_eq_true, decide_eq_true_eq] at hxp
      have hxc : x.cpu = fr.cpu := hxp.1.trans hfr.symm
      have hxm : x.memory < fr.memory := lt_of_lt_of_le hxp.2 hcov.2
      show get_cost_per_day x.cpu x.memory < get_cost_per_day fr.cpu fr.memory
      unfold get_cost_per_day
      rw [per_vcpu_val, per_gb_val, hxc]
      linarith
  · by_cases hcm : c < fr.cpu ∧ m ≤ fr.memory
    · cases hpm1 : pyMax (fun x => x.cpu)
          (RESOURCES.filter fun r => decide (r.cpu < fr.cpu)) with
      | none =>
        rw [alt_case2_none fr c m hfr hcm hpm1] at hne
        exact absurd rfl hne
      | some mx =>
        obtain ⟨hmxf, _⟩ := pyMax_spec _ _ _ hpm1
        obtain ⟨hmxR, hmxp⟩ := List.mem_filter.mp hmxf
        simp only [decide_eq_true_eq] at hmxp
        rw [alt_case2_eq fr c m hfr hcm mx hpm1] at hne ⊢
        cases hpm2 : pyMax (fun x => x.memory)
            (RESOURCES.filter fun r =>
              decide (r.cpu = mx.cpu) && decide (-1 < r.memory - m) &&
                decide (r.memory - m < 1)) with
        | none => rw [hpm2] at hne; exact absurd rfl hne
        | some x =>
          obtain ⟨hxf, _⟩ := pyMax_spec _ _ _ hpm2
          obtain ⟨hxR, hxp⟩ := List.mem_filter.mp hxf
          simp only [Bool.and_eq_true, decide_eq_true_eq] at hxp
          have hxlt : x.cpu < fr.cpu := hxp.1.1 ▸ hmxp
          have hgap : x.cpu + mkRat 1 4 ≤ fr.cpu :=
            cpu_gap x.cpu (resources_cpu_values x hxR) fr.cpu
              (resources_cpu_values fr hfrR) hxlt
          rw [mkRat_quarter] at hgap
          have hxm : x.memory < fr.memory + 1 := by
            have h1 : x.memory - m < 1 := hxp.2
            linarith [hcm.2]
          show get_cost_per_day x.cpu x.memory < get_cost_per_day fr.cpu fr.memory
          unfold get_cost_per_day
          rw [per_vcpu_val, per_gb_val]
          linarith
    · exact absurd (alt_else_eq fr c m hfr hcm) hne

/-- Witness for C8 at the request (1, 4): the alternate (1, 3) tier is
strictly cheaper than the primary (1, 4) tier. -/
theorem c8_alt_strictly_cheaper_witness :
    get_cost_per_day (get_alt_tier_resource ⟨"1 vCPU, 4 GB", 1, 4⟩ 1 4).cpu
        (get_alt_tier_resource ⟨"1 vCPU, 4 GB", 1, 4⟩ 1 4).memory <
      get_cost_per_day (⟨"1 vCPU, 4 GB", 1, 4⟩ : Resource).cpu
        (⟨"1 vCPU, 4 GB", 1, 4⟩ : Resource).memory :=
  c8_alt_strictly_cheaper 1 4 ⟨"1 vCPU, 4 GB", 1, 4⟩ (by decide) (by decide)

/-- C9: `get_cost_per_day` is exactly
`(cpu * 0.05056 + memory * 0.00553) * 24` with the published constants, with
no rounding and no error path; in particular at the (1, 2) tier. -/
theorem c9_cost_per_day_formula :
    (∀ cpu memory : ℚ, get_cost_per_day cpu memory =
      (cpu * (5056 / 100000) + memory * (553 / 100000)) * 24) ∧
    PER_VCPU_COST_PER_HOUR = 5056 / 100000 ∧
    PER_GB_COST_PER_HOUR = 553 / 100000 ∧
    get_cost_per_day 1 2 =
      (1 * PER_VCPU_COST_PER_HOUR + 2 * PER_GB_COST_PER_HOUR) * 24 := by
  refine ⟨?_, per_vcpu_val, per_gb_val, rfl⟩
  intro cpu memory
  unfold get_cost_per_day
  rw [per_vcpu_val, per_gb_val]

/-- C10: the flagged entry point composes the two operations: whenever the
plain scan succeeds with a primary tier, the `alt_tier = true` call returns
exactly the alternate-tier heuristic applied to that primary tier. -/
theorem c10_flag_composes (c m : ℚ) (fr : Resource)
    (hp : get_resource c m false = .ok fr) :
    get_resource c m true = .ok (get_alt_tier_resource fr c m) := by
  have ht := get_resource_ok c m fr hp
  unfold get_resource
  rw [ht]
  rfl

/-- Witness for C10 at the request (1, 4). -/
theorem c10_flag_composes_witness :
    get_resource 1 4 true =
      .ok (get_alt_tier_resource ⟨"1 vCPU, 4 GB", 1, 4⟩ 1 4) :=
  c10_flag_composes 1 4 ⟨"1 vCPU, 4 GB", 1, 4⟩ (by decide)

